import Mathlib

/-!
Shallow embedding of the administrative configuration module
(`src/routes/admin/config.py` of zhu748/ds2api) and proofs about the
claims of its specification.

Modelling conventions:
- a Python account dict is a record of four optional string fields;
  a missing key is `none`, a key explicitly set to a string `s` is `some s`;
- Python truthiness of `acc.get(f)` (absent or empty string is falsy)
  is the `truthy` predicate below;
- each handler that calls `init_account_queue()` returns a Bool flag that
  is `true` exactly on the paths where that call happens, so that the
  rebuild side effect is visible in the pure model;
- raising `HTTPException` is modelled with `Except`.
-/

namespace DS2Api

/-- One provider account record, as stored in `CONFIG["accounts"]`. -/
structure Account where
  email : Option String
  mobile : Option String
  password : Option String
  token : Option String
deriving Repr, DecidableEq

/-- Python truthiness of `acc.get(field)`: the field is present and non-empty. -/
def truthy (o : Option String) : Bool := o.getD "" ≠ ""

/-- Modelled from the spec: `get_account_identifier` is imported from
`core.auth`, a module absent from the provided sources. Per the spec,
the identifier of an account is its email if present, else its mobile. -/
def get_account_identifier (a : Account) : String :=
  if truthy a.email then a.email.getD "" else a.mobile.getD ""

/-- The mutable configuration (the parts the account routes touch). -/
structure Config where
  keys : List String
  accounts : List Account
  claude_mapping : List (String × String)
deriving Repr, DecidableEq

/-- Redacted account view produced by `get_config` and `list_accounts`. -/
structure SafeAccount where
  email : String
  mobile : String
  has_password : Bool
  has_token : Bool
  token_preview : String
deriving Repr, DecidableEq

/-- The per-account redaction performed by `get_config` and `list_accounts`. -/
def redactAccount (a : Account) : SafeAccount :=
  { email := a.email.getD ""
    mobile := a.mobile.getD ""
    has_password := truthy a.password
    has_token := truthy a.token
    token_preview :=
      if truthy a.token then (a.token.getD "").take 20 ++ "..." else "" }

/-- Redacted configuration returned by `GET /config`. -/
structure SafeConfig where
  keys : List String
  accounts : List SafeAccount
  claude_mapping : List (String × String)
deriving Repr, DecidableEq

/-- `GET /config`: the redacted view of the whole configuration. -/
def get_config (cfg : Config) : SafeConfig :=
  { keys := cfg.keys
    accounts := cfg.accounts.map redactAccount
    claude_mapping := cfg.claude_mapping }

/-- Request body of `POST /config`; a key absent from the JSON body is `none`. -/
structure UpdateRequest where
  keys : Option (List String)
  accounts : Option (List Account)
  claude_mapping : Option (List (String × String))
deriving Repr

/-- The dict comprehension `{get_account_identifier(a): a for a in accounts}`
followed by lookup: a later entry with the same identifier wins. -/
def lookupLast (accs : List Account) (i : String) : Option Account :=
  (accs.filter (fun a => get_account_identifier a == i)).getLast?

/-- The credential-preserving merge of the bulk-replace branch of
`update_config`: when the incoming record has a falsy password (resp. token)
and its identifier is bound in the existing dict, the existing value
(defaulted to the empty string) is written onto the incoming record. -/
def mergeAccount (old : List Account) (acc : Account) : Account :=
  match lookupLast old (get_account_identifier acc) with
  | none => acc
  | some ex =>
      { acc with
        password := if truthy acc.password then acc.password
                    else some (ex.password.getD "")
        token := if truthy acc.token then acc.token
                 else some (ex.token.getD "") }

/-- `POST /config` (`update_config`): updates each configuration section that
is present in the body; the returned Bool records whether
`init_account_queue()` was invoked. -/
def update_config (cfg : Config) (req : UpdateRequest) : Config × Bool :=
  let cfg1 : Config :=
    match req.keys with
    | none => cfg
    | some ks => { cfg with keys := ks }
  let step2 : Config × Bool :=
    match req.accounts with
    | none => (cfg1, false)
    | some accs =>
        ({ cfg1 with accounts := accs.map (mergeAccount cfg.accounts) }, true)
  let cfg3 : Config :=
    match req.claude_mapping with
    | none => step2.1
    | some m => { step2.1 with claude_mapping := m }
  (cfg3, step2.2)

/-- Errors raised through `HTTPException` by the account handlers. -/
inductive AdminError where
  | invalidAccount
  | duplicateEmail
  | duplicateMobile
  | notFound
deriving Repr, DecidableEq

/-- Python `str.strip()`: remove leading and trailing whitespace. Written
over the character list so that it evaluates inside the kernel. -/
def pyStrip (s : String) : String :=
  ⟨((s.toList.dropWhile Char.isWhitespace).reverse.dropWhile Char.isWhitespace).reverse⟩

/-- The duplicate scan of `add_account`: the first existing account whose
email equals the non-empty incoming email raises the email error; else,
same for mobile. -/
def dupCheck (email mobile : String) : List Account → Option AdminError
  | [] => none
  | a :: rest =>
      if email ≠ "" ∧ a.email = some email then some .duplicateEmail
      else if mobile ≠ "" ∧ a.mobile = some mobile then some .duplicateMobile
      else dupCheck email mobile rest

/-- The `new_account` dict built by `add_account`: only non-empty fields
are present. -/
def mkNewAccount (email mobile password token : String) : Account :=
  { email := if email = "" then none else some email
    mobile := if mobile = "" then none else some mobile
    password := if password = "" then none else some password
    token := if token = "" then none else some token }

/-- `POST /accounts` (`add_account`): strips the four fields, rejects a
record with neither email nor mobile, rejects a field-level duplicate,
otherwise appends the new account; the Bool records the
`init_account_queue()` call. -/
def add_account (cfg : Config) (email mobile password token : String) :
    Except AdminError (Config × Bool) :=
  let email := pyStrip email
  let mobile := pyStrip mobile
  let password := pyStrip password
  let token := pyStrip token
  if email = "" ∧ mobile = "" then .error .invalidAccount
  else
    match dupCheck email mobile cfg.accounts with
    | some e => .error e
    | none =>
        .ok ({ cfg with
                accounts := cfg.accounts ++ [mkNewAccount email mobile password token] },
             true)

/-- The scan of `delete_account`: remove the first account whose email or
mobile equals the path argument; `none` when no account matches. -/
def deleteFirst (identifier : String) : List Account → Option (List Account)
  | [] => none
  | a :: rest =>
      if a.email = some identifier ∨ a.mobile = some identifier then some rest
      else (deleteFirst identifier rest).map (a :: ·)

/-- `DELETE /accounts/{identifier}` (`delete_account`); the Bool records the
`init_account_queue()` call. -/
def delete_account (cfg : Config) (identifier : String) :
    Except AdminError (Config × Bool) :=
  match deleteFirst identifier cfg.accounts with
  | none => .error .notFound
  | some accs => .ok ({ cfg with accounts := accs }, true)

/-- Response of `GET /accounts` (`list_accounts`). -/
structure AccountsPage where
  items : List SafeAccount
  total : Nat
  page : Int
  page_size : Int
  total_pages : Nat
deriving Repr, DecidableEq

/-- `GET /accounts` (`list_accounts`): newest first, clamped pagination,
redacted records. -/
def list_accounts (accounts : List Account) (page page_size : Int) :
    AccountsPage :=
  let total := accounts.length
  let rev := accounts.reverse
  let pg : Int := max 1 page
  let psize : Int := max 1 (min 100 page_size)
  let pn : Nat := psize.toNat
  let tp : Nat := if 0 < total then (total + pn - 1) / pn else 1
  let start : Nat := ((pg - 1) * psize).toNat
  let pageAccounts := (rev.drop start).take pn
  { items := pageAccounts.map redactAccount
    total := total
    page := pg
    page_size := psize
    total_pages := tp }

/-- Modelled from the spec: the account rotation queue
(`init_account_queue`, `next`) lives in `core.auth`, a module absent from
the provided sources. Per the spec it holds the ordered sequence of
identifiers of the rebuild plus a cursor, and with every account available
and no failures, selection advances circularly in insertion order. -/
structure AccountQueue where
  ids : List String
  cursor : Nat
deriving Repr, DecidableEq

/-- Modelled from the spec: a rebuild recomputes the ordered identifier
sequence and starts the cursor at zero. -/
def init_account_queue (ids : List String) : AccountQueue :=
  { ids := ids, cursor := 0 }

/-- Modelled from the spec: with no cooldowns, one selection returns the
identifier at the cursor position (circularly) and advances the cursor. -/
def queueNext (q : AccountQueue) : Option String × AccountQueue :=
  if q.ids = [] then (none, q)
  else (q.ids.get? (q.cursor % q.ids.length), { q with cursor := q.cursor + 1 })

/-- The identifiers returned by `n` consecutive selections, with the final
queue state. -/
def runQueue : Nat → AccountQueue → List String × AccountQueue
  | 0, q => ([], q)
  | Nat.succ n, q =>
      let step := queueNext q
      let rest := runQueue n step.2
      (step.1.toList ++ rest.1, rest.2)

/-- The property claimed by the spec for the store: no two accounts share
an identifier (email if present, else mobile). -/
def DistinctIds (accs : List Account) : Prop :=
  (accs.map get_account_identifier).Nodup

instance (accs : List Account) : Decidable (DistinctIds accs) := by
  unfold DistinctIds; infer_instance

/-- Field-level clash: the two optional fields hold the same non-empty
string. -/
def fieldClash (x y : Option String) : Prop := truthy x = true ∧ x = y

/-- The uniqueness notion `add_account` actually enforces: no two accounts
share a non-empty email, and no two share a non-empty mobile. -/
def FieldwiseUnique (accs : List Account) : Prop :=
  accs.Pairwise (fun a b => ¬ fieldClash a.email b.email ∧ ¬ fieldClash a.mobile b.mobile)

/-- One administrative add step as the server applies it: a rejected add
leaves the configuration unchanged. -/
def addStep (cfg : Config) (r : String × String × String × String) : Config :=
  match add_account cfg r.1 r.2.1 r.2.2.1 r.2.2.2 with
  | .ok (cfg2, _) => cfg2
  | .error _ => cfg

/-- Decidable equality for handler outcomes, for evaluating the model on
concrete inputs. -/
def exceptDecEq {ε α : Type} [DecidableEq ε] [DecidableEq α] :
    DecidableEq (Except ε α)
  | .error a, .error b =>
      if h : a = b then .isTrue (by rw [h])
      else .isFalse (by intro he; cases he; exact h rfl)
  | .error _, .ok _ => .isFalse (by intro he; cases he)
  | .ok _, .error _ => .isFalse (by intro he; cases he)
  | .ok a, .ok b =>
      if h : a = b then .isTrue (by rw [h])
      else .isFalse (by intro he; cases he; exact h rfl)

instance {ε α : Type} [DecidableEq ε] [DecidableEq α] :
    DecidableEq (Except ε α) := exceptDecEq

/-- Whether a handler outcome is an HTTP error. -/
def isError : Except AdminError (Config × Bool) → Bool
  | .error _ => true
  | .ok _ => false

/-- Credential-indistinguishability of two accounts: same identity fields,
same password presence, same token presence, and tokens agreeing on their
first 20 characters. -/
def CredEquiv (a b : Account) : Prop :=
  a.email = b.email ∧ a.mobile = b.mobile ∧
  truthy a.password = truthy b.password ∧
  truthy a.token = truthy b.token ∧
  (a.token.getD "").take 20 = (b.token.getD "").take 20

/-! ## Helper lemmas -/

/-- When the body carries an `accounts` key, `update_config` replaces the
stored account list with the merged incoming list and rebuilds the queue. -/
theorem update_config_accounts_eq (cfg : Config) (req : UpdateRequest)
    (accs : List Account) (h : req.accounts = some accs) :
    (update_config cfg req).1.accounts = accs.map (mergeAccount cfg.accounts) ∧
    (update_config cfg req).2 = true := by
  rcases req with ⟨k, a, c⟩
  subst h
  cases k <;> cases c <;> simp [update_config]

/-! ## Claims -/

/-- C10: `update_config` only touches the configuration sections named in
the request body: a body lacking the `accounts` key leaves the stored
account list unchanged and does not rebuild the rotation queue, and a body
lacking `keys` (resp. `claude_mapping`) leaves that section unchanged. -/
theorem update_config_frame (cfg : Config) (req : UpdateRequest) :
    (req.accounts = none →
      (update_config cfg req).1.accounts = cfg.accounts ∧
      (update_config cfg req).2 = false) ∧
    (req.keys = none → (update_config cfg req).1.keys = cfg.keys) ∧
    (req.claude_mapping = none →
      (update_config cfg req).1.claude_mapping = cfg.claude_mapping) := by
  rcases req with ⟨k, a, c⟩
  refine ⟨fun h => ?_, fun h => ?_, fun h => ?_⟩ <;> subst h
  · cases k <;> cases c <;> simp [update_config]
  · cases a <;> cases c <;> simp [update_config]
  · cases k <;> cases a <;> simp [update_config]

theorem update_config_frame_wit :
    (update_config ⟨["k"], [⟨some "a", none, none, none⟩], []⟩
        ⟨none, none, none⟩).1.accounts = [⟨some "a", none, none, none⟩] ∧
    (update_config ⟨["k"], [⟨some "a", none, none, none⟩], []⟩
        ⟨none, none, none⟩).2 = false :=
  (update_config_frame ⟨["k"], [⟨some "a", none, none, none⟩], []⟩
    ⟨none, none, none⟩).1 rfl

/-- C6: every structural mutation of the account set that returns success
(the bulk-replace branch of `update_config`, a successful `add_account`,
and a successful `delete_account`) invokes the rotation-queue rebuild
before returning success; the Bool component of each result records
exactly the `init_account_queue()` call of the source. -/
theorem mutations_rebuild_queue (cfg : Config) :
    (∀ req accs, req.accounts = some accs → (update_config cfg req).2 = true) ∧
    (∀ e m p t cfg2 b, add_account cfg e m p t = .ok (cfg2, b) → b = true) ∧
    (∀ iden cfg2 b, delete_account cfg iden = .ok (cfg2, b) → b = true) := by
  refine ⟨fun req accs h => (update_config_accounts_eq cfg req accs h).2,
          fun e m p t cfg2 b h => ?_, fun iden cfg2 b h => ?_⟩
  · simp only [add_account] at h
    split at h
    · exact Except.noConfusion h
    · split at h
      · exact Except.noConfusion h
      · simp only [Except.ok.injEq, Prod.mk.injEq] at h
        exact h.2.symm
  · unfold delete_account at h
    split at h
    · exact Except.noConfusion h
    · simp only [Except.ok.injEq, Prod.mk.injEq] at h
      exact h.2.symm

theorem mutations_rebuild_queue_wit :
    (update_config ⟨[], [], []⟩ ⟨none, some [], none⟩).2 = true ∧
    (true = true) ∧ (true = true) :=
  ⟨(mutations_rebuild_queue ⟨[], [], []⟩).1 ⟨none, some [], none⟩ [] rfl,
   (mutations_rebuild_queue ⟨[], [], []⟩).2.1 "a" "" "" ""
     ⟨[], [mkNewAccount "a" "" "" ""], []⟩ true (by decide),
   (mutations_rebuild_queue ⟨[], [⟨some "z", none, none, none⟩], []⟩).2.2 "z"
     ⟨[], [], []⟩ true (by decide)⟩

/-- C1: in the bulk-replace branch of `update_config`, an incoming record
whose identifier is bound in the existing-account dict keeps the existing
password (resp. token) when the incoming one is absent or empty, takes the
incoming one when it is non-empty, and keeps its own identity fields. -/
theorem bulk_replace_preserves_credentials (cfg : Config) (req : UpdateRequest)
    (incoming : List Account) (hreq : req.accounts = some incoming)
    (i : Nat) (acc ex stored : Account)
    (hacc : incoming[i]? = some acc)
    (hex : lookupLast cfg.accounts (get_account_identifier acc) = some ex)
    (hstored : ((update_config cfg req).1.accounts)[i]? = some stored) :
    stored.email = acc.email ∧ stored.mobile = acc.mobile ∧
    (truthy acc.password = false → stored.password = some (ex.password.getD "")) ∧
    (truthy acc.password = true → stored.password = acc.password) ∧
    (truthy acc.token = false → stored.token = some (ex.token.getD "")) ∧
    (truthy acc.token = true → stored.token = acc.token) := by
  rw [(update_config_accounts_eq cfg req incoming hreq).1,
      List.getElem?_map, hacc] at hstored
  simp only [Option.map_some'] at hstored
  have hst : stored = mergeAccount cfg.accounts acc := by
    exact (Option.some.injEq _ _ ▸ hstored).symm
  subst hst
  unfold mergeAccount
  rw [hex]
  refine ⟨rfl, rfl, fun hp => ?_, fun hp => ?_, fun ht => ?_, fun ht => ?_⟩
  · simp [hp]
  · simp [hp]
  · simp [ht]
  · simp [ht]

theorem bulk_replace_preserves_credentials_wit :
    ((⟨some "a", none, none, some "t2"⟩ : Account).email = some "a" ∧
     (⟨some "a", none, none, some "t2"⟩ : Account).mobile = none) ∧
    (⟨some "a", none, some "pw", some "t2"⟩ : Account).password = some "pw" ∧
    (⟨some "a", none, some "pw", some "t2"⟩ : Account).token = some "t2" := by
  have h := bulk_replace_preserves_credentials
    ⟨[], [⟨some "a", none, some "pw", some "tk"⟩], []⟩
    ⟨none, some [⟨some "a", none, none, some "t2"⟩], none⟩
    [⟨some "a", none, none, some "t2"⟩] rfl
    0 ⟨some "a", none, none, some "t2"⟩ ⟨some "a", none, some "pw", some "tk"⟩
    ⟨some "a", none, some "pw", some "t2"⟩ (by decide) (by decide) (by decide)
  exact ⟨⟨h.1, h.2.1⟩, h.2.2.1 (by decide), h.2.2.2.2.2 (by decide)⟩

/-- The duplicate scan finds nothing exactly when no stored account matches
the non-empty incoming email or the non-empty incoming mobile. -/
theorem dupCheck_eq_none_iff (e m : String) (accs : List Account) :
    dupCheck e m accs = none ↔
      ∀ a ∈ accs, ¬(e ≠ "" ∧ a.email = some e) ∧ ¬(m ≠ "" ∧ a.mobile = some m) := by
  induction accs with
  | nil => simp [dupCheck]
  | cons a rest ih =>
      by_cases h1 : e ≠ "" ∧ a.email = some e
      · simp [dupCheck, h1]
      · by_cases h2 : m ≠ "" ∧ a.mobile = some m
        · simp [dupCheck, h1, h2]
        · simp only [dupCheck, if_neg h1, if_neg h2, ih, List.forall_mem_cons]
          exact ⟨fun hr => ⟨⟨h1, h2⟩, hr⟩, fun hh => hh.2⟩

/-- C3 counterexample: with the store `[{email e, mobile m}]`, adding a
record with only mobile `m` is rejected although no stored account has
identifier `m` (the stored identifier is `e`); conversely, with the store
`[{email x}]`, adding a record with only mobile `x` is accepted although
the two records then share the identifier `x`. -/
theorem add_account_identifier_cex :
    add_account ⟨[], [⟨some "e", some "m", none, none⟩], []⟩ "" "m" "" "" =
      .error .duplicateMobile ∧
    get_account_identifier ⟨some "e", some "m", none, none⟩ = "e" ∧
    get_account_identifier (mkNewAccount "" "m" "" "") = "m" ∧
    add_account ⟨[], [⟨some "x", none, none, none⟩], []⟩ "" "x" "" "" =
      .ok (⟨[], [⟨some "x", none, none, none⟩, ⟨none, some "x", none, none⟩], []⟩, true) ∧
    get_account_identifier ⟨some "x", none, none, none⟩ = "x" ∧
    get_account_identifier ⟨none, some "x", none, none⟩ = "x" := by
  decide

/-- C3 amended: `add_account` is rejected (with no state change) exactly
when some stored account has an email equal to the stripped non-empty
incoming email, or a mobile equal to the stripped non-empty incoming
mobile; otherwise the new record, holding exactly its non-empty fields,
is appended at the end. -/
theorem add_account_conflict_characterization (cfg : Config)
    (e m p t : String) (hid : ¬(pyStrip e = "" ∧ pyStrip m = "")) :
    (isError (add_account cfg e m p t) = true ↔
      ∃ a ∈ cfg.accounts,
        (pyStrip e ≠ "" ∧ a.email = some (pyStrip e)) ∨
        (pyStrip m ≠ "" ∧ a.mobile = some (pyStrip m))) ∧
    (isError (add_account cfg e m p t) = false →
      add_account cfg e m p t =
        .ok ({ cfg with accounts := cfg.accounts ++
                [mkNewAccount (pyStrip e) (pyStrip m) (pyStrip p) (pyStrip t)] },
             true)) := by
  simp only [add_account, if_neg hid]
  cases hd : dupCheck (pyStrip e) (pyStrip m) cfg.accounts with
  | none =>
      refine ⟨⟨fun hfalse => absurd hfalse (by simp [isError]), fun hex => ?_⟩,
              fun _ => rfl⟩
      rw [dupCheck_eq_none_iff] at hd
      obtain ⟨a, ha, hconf⟩ := hex
      rcases hd a ha with ⟨hne, hnm⟩
      rcases hconf with h | h
      · exact absurd h hne
      · exact absurd h hnm
  | some err =>
      refine ⟨⟨fun _ => ?_, fun _ => rfl⟩, fun hfalse => absurd hfalse (by simp [isError])⟩
      by_contra hnone
      have hnone2 : dupCheck (pyStrip e) (pyStrip m) cfg.accounts = none := by
        rw [dupCheck_eq_none_iff]
        intro a ha
        exact ⟨fun hc => hnone ⟨a, ha, Or.inl hc⟩, fun hc => hnone ⟨a, ha, Or.inr hc⟩⟩
      rw [hnone2] at hd
      exact Option.noConfusion hd

theorem add_account_conflict_characterization_wit :
    isError (add_account ⟨[], [⟨some "a", none, none, none⟩], []⟩ "a" "" "" "") = true :=
  (add_account_conflict_characterization
    ⟨[], [⟨some "a", none, none, none⟩], []⟩ "a" "" "" "" (by decide)).1.mpr
    ⟨⟨some "a", none, none, none⟩, by simp, Or.inl ⟨by decide, by decide⟩⟩

/-- C4 counterexample: the bulk-replace branch of `update_config` stores a
record that has neither email nor mobile (hence an empty identifier); no
InvalidAccount rejection happens there. -/
theorem invalid_account_enters_store_cex :
    (update_config ⟨[], [], []⟩
        ⟨none, some [⟨none, none, none, none⟩], none⟩).1.accounts =
      [⟨none, none, none, none⟩] ∧
    (update_config ⟨[], [], []⟩
        ⟨none, some [⟨none, none, none, none⟩], none⟩).2 = true ∧
    get_account_identifier ⟨none, none, none, none⟩ = "" := by
  decide

/-- C4 amended: `add_account` rejects a record whose stripped email and
mobile are both empty with the InvalidAccount error, before any state
change; the bulk-replace branch of `update_config` performs no such
validation. -/
theorem add_account_rejects_no_identifier (cfg : Config) (e m p t : String)
    (he : pyStrip e = "") (hm : pyStrip m = "") :
    add_account cfg e m p t = .error .invalidAccount := by
  simp only [add_account]
  rw [if_pos ⟨he, hm⟩]

theorem add_account_rejects_no_identifier_wit :
    add_account ⟨["k"], [⟨some "a", none, none, none⟩], []⟩ " " "" "p" "t" =
      .error .invalidAccount :=
  add_account_rejects_no_identifier _ " " "" "p" "t" (by decide) (by decide)

/-- The scan of `delete_account` finds nothing exactly when no account
matches on either field. -/
theorem deleteFirst_eq_none_iff (iden : String) (accs : List Account) :
    deleteFirst iden accs = none ↔
      ∀ a ∈ accs, a.email ≠ some iden ∧ a.mobile ≠ some iden := by
  induction accs with
  | nil => simp [deleteFirst]
  | cons a rest ih =>
      by_cases h : a.email = some iden ∨ a.mobile = some iden
      · simp [deleteFirst, h]
        tauto
      · push_neg at h
        simp [deleteFirst, h, ih]

/-- A successful scan splits the list at the first matching account and
removes exactly that account. -/
theorem deleteFirst_eq_some (iden : String) (accs rest : List Account)
    (h : deleteFirst iden accs = some rest) :
    ∃ pre a post,
      accs = pre ++ a :: post ∧
      (∀ x ∈ pre, x.email ≠ some iden ∧ x.mobile ≠ some iden) ∧
      (a.email = some iden ∨ a.mobile = some iden) ∧
      rest = pre ++ post := by
  induction accs generalizing rest with
  | nil => exact Option.noConfusion h
  | cons a tl ih =>
      by_cases hm : a.email = some iden ∨ a.mobile = some iden
      · rw [deleteFirst, if_pos hm] at h
        refine ⟨[], a, tl, rfl, by simp, hm, ?_⟩
        simpa using h.symm
      · rw [deleteFirst, if_neg hm] at h
        cases htl : deleteFirst iden tl with
        | none => rw [htl] at h; exact Option.noConfusion h
        | some l =>
            rw [htl] at h
            simp only [Option.map_some', Option.some.injEq] at h
            obtain ⟨pre, b, post, h1, h2, h3, h4⟩ := ih l htl
            push_neg at hm
            refine ⟨a :: pre, b, post, by simp [h1], ?_, h3, ?_⟩
            · intro x hx
              rcases List.mem_cons.mp hx with rfl | hx
              · exact hm
              · exact h2 x hx
            · rw [← h, h4]; rfl

/-- C5 counterexample: the stored account has identifier `e` (its email is
present), yet `delete_account` with argument `m` removes it, because the
code matches the argument against the email or the mobile field, not
against the derived identifier. -/
theorem delete_account_identifier_cex :
    delete_account ⟨[], [⟨some "e", some "m", none, none⟩], []⟩ "m" =
      .ok (⟨[], [], []⟩, true) ∧
    get_account_identifier ⟨some "e", some "m", none, none⟩ = "e" := by
  decide

/-- C5 amended: `delete_account` fails with NotFound, leaving the account
list unchanged, exactly when no account has an email or a mobile equal to
the argument; otherwise it removes exactly the first account whose email
or mobile equals the argument, leaving all other accounts (and the other
configuration sections) unchanged. -/
theorem delete_account_characterization (cfg : Config) (iden : String) :
    (delete_account cfg iden = .error .notFound ↔
      ∀ a ∈ cfg.accounts, a.email ≠ some iden ∧ a.mobile ≠ some iden) ∧
    (∀ cfg2 b, delete_account cfg iden = .ok (cfg2, b) →
      ∃ pre a post,
        cfg.accounts = pre ++ a :: post ∧
        (∀ x ∈ pre, x.email ≠ some iden ∧ x.mobile ≠ some iden) ∧
        (a.email = some iden ∨ a.mobile = some iden) ∧
        cfg2.accounts = pre ++ post ∧
        cfg2.keys = cfg.keys ∧ cfg2.claude_mapping = cfg.claude_mapping) := by
  constructor
  · rw [← deleteFirst_eq_none_iff]
    unfold delete_account
    cases hd : deleteFirst iden cfg.accounts <;> simp
  · intro cfg2 b h
    unfold delete_account at h
    cases hd : deleteFirst iden cfg.accounts with
    | none => rw [hd] at h; exact Except.noConfusion h
    | some rest =>
        rw [hd] at h
        simp only [Except.ok.injEq, Prod.mk.injEq] at h
        obtain ⟨pre, a, post, h1, h2, h3, h4⟩ := deleteFirst_eq_some iden cfg.accounts rest hd
        exact ⟨pre, a, post, h1, h2, h3, by rw [← h.1, h4], by rw [← h.1], by rw [← h.1]⟩

theorem delete_account_characterization_wit :
    delete_account ⟨[], [⟨some "a", none, none, none⟩], []⟩ "z" =
      .error .notFound :=
  (delete_account_characterization
    ⟨[], [⟨some "a", none, none, none⟩], []⟩ "z").1.mpr (by decide)

/-- C2 counterexample: starting from stores with pairwise-distinct
identifiers, both administrative paths can produce a store with a
duplicated identifier. The bulk-replace branch installs an incoming list
containing two records with identifier `a` without any check; and
`add_account` accepts a mobile equal to an existing email, after which two
accounts share the identifier `x`. -/
theorem store_uniqueness_cex :
    DistinctIds ([] : List Account) ∧
    ¬ DistinctIds ((update_config ⟨[], [], []⟩
        ⟨none, some [⟨some "a", none, none, none⟩, ⟨some "a", none, none, none⟩],
         none⟩).1.accounts) ∧
    DistinctIds [(⟨some "x", none, none, none⟩ : Account)] ∧
    add_account ⟨[], [⟨some "x", none, none, none⟩], []⟩ "" "x" "" "" =
      .ok (⟨[], [⟨some "x", none, none, none⟩, ⟨none, some "x", none, none⟩], []⟩, true) ∧
    ¬ DistinctIds [(⟨some "x", none, none, none⟩ : Account),
                   ⟨none, some "x", none, none⟩] := by
  decide

/-- One accepted `add_account` preserves field-wise uniqueness. -/
theorem addStep_preserves_fieldwise (cfg : Config)
    (r : String × String × String × String) (h : FieldwiseUnique cfg.accounts) :
    FieldwiseUnique ((addStep cfg r).accounts) := by
  unfold addStep
  cases hk : add_account cfg r.1 r.2.1 r.2.2.1 r.2.2.2 with
  | error e => exact h
  | ok res =>
      obtain ⟨cfg2, b⟩ := res
      simp only [add_account] at hk
      split at hk
      · exact Except.noConfusion hk
      · cases hd : dupCheck (pyStrip r.1) (pyStrip r.2.1) cfg.accounts with
        | some err => rw [hd] at hk; exact Except.noConfusion hk
        | none =>
            rw [hd] at hk
            simp only [Except.ok.injEq, Prod.mk.injEq] at hk
            have hacc : cfg2.accounts = cfg.accounts ++
                [mkNewAccount (pyStrip r.1) (pyStrip r.2.1)
                  (pyStrip r.2.2.1) (pyStrip r.2.2.2)] := by
              rw [← hk.1]
            show FieldwiseUnique cfg2.accounts
            rw [hacc]
            unfold FieldwiseUnique at h ⊢
            rw [List.pairwise_append]
            refine ⟨h, List.pairwise_singleton _ _, ?_⟩
            intro a ha bb hb
            rw [List.mem_singleton] at hb
            subst hb
            rw [dupCheck_eq_none_iff] at hd
            rcases hd a ha with ⟨hne, hnm⟩
            constructor
            · rintro ⟨htr, heq⟩
              by_cases he : pyStrip r.1 = ""
              · simp only [mkNewAccount, if_pos he] at heq
                rw [heq] at htr
                exact absurd htr (by decide)
              · simp only [mkNewAccount, if_neg he] at heq
                exact hne ⟨he, heq⟩
            · rintro ⟨htr, heq⟩
              by_cases hmm : pyStrip r.2.1 = ""
              · simp only [mkNewAccount, if_pos hmm] at heq
                rw [heq] at htr
                exact absurd htr (by decide)
              · simp only [mkNewAccount, if_neg hmm] at heq
                exact hnm ⟨hmm, heq⟩

/-- C2 amended: over every sequence of adds at the administrative boundary
(where a rejected add leaves the configuration unchanged), `add_account`
preserves field-wise uniqueness: no two stored accounts share a non-empty
email and no two share a non-empty mobile. It does not preserve
identifier-level (email-else-mobile) uniqueness, and the bulk-replace
branch of `update_config` enforces no uniqueness at all. -/
theorem add_sequence_preserves_fieldwise_unique
    (ops : List (String × String × String × String)) (cfg : Config)
    (h : FieldwiseUnique cfg.accounts) :
    FieldwiseUnique ((ops.foldl addStep cfg).accounts) := by
  induction ops generalizing cfg with
  | nil => exact h
  | cons op rest ih => exact ih _ (addStep_preserves_fieldwise cfg op h)

theorem add_sequence_preserves_fieldwise_unique_wit :
    FieldwiseUnique (([("a", "", "p", ""), ("a", "", "", "")].foldl addStep
      ⟨[], [], []⟩).accounts) :=
  add_sequence_preserves_fieldwise_unique _ ⟨[], [], []⟩
    (by unfold FieldwiseUnique; exact List.Pairwise.nil)

/-- Credential-indistinguishable accounts redact identically. -/
theorem redactAccount_eq_of_credEquiv {a b : Account} (h : CredEquiv a b) :
    redactAccount a = redactAccount b := by
  obtain ⟨he, hm, hp, ht, htk⟩ := h
  unfold redactAccount
  rw [he, hm, hp, ht]
  cases hb : truthy b.token with
  | false => simp [hb]
  | true => simp [hb, htk]

/-- Pointwise credential-indistinguishable lists redact to the same list. -/
theorem map_redact_eq_of_forall₂ {l1 l2 : List Account}
    (h : List.Forall₂ CredEquiv l1 l2) :
    l1.map redactAccount = l2.map redactAccount := by
  induction h with
  | nil => rfl
  | cons hab _ ih => simp [redactAccount_eq_of_credEquiv hab, ih]

/-- C7: the redacted administrative views depend on credentials only
through presence booleans and the 20-character token preview: two stored
configurations that agree on everything except password values (with equal
presence) and token characters beyond the first 20 (with equal presence)
produce identical `get_config` and `list_accounts` responses. -/
theorem redaction_no_leak (c1 c2 : Config)
    (hk : c1.keys = c2.keys) (hm : c1.claude_mapping = c2.claude_mapping)
    (h : List.Forall₂ CredEquiv c1.accounts c2.accounts) :
    get_config c1 = get_config c2 ∧
    ∀ page psize : Int,
      list_accounts c1.accounts page psize = list_accounts c2.accounts page psize := by
  have hmap := map_redact_eq_of_forall₂ h
  have hlen : c1.accounts.length = c2.accounts.length := h.length_eq
  constructor
  · simp only [get_config, SafeConfig.mk.injEq]
    exact ⟨hk, hmap, hm⟩
  · intro page psize
    simp only [list_accounts, AccountsPage.mk.injEq]
    refine ⟨?_, hlen, trivial, trivial, ?_⟩
    · rw [List.map_take, List.map_drop, List.map_reverse, hmap,
          ← List.map_reverse, ← List.map_drop, ← List.map_take]
    · rw [hlen]

set_option maxRecDepth 10000 in
theorem redaction_no_leak_wit :
    get_config ⟨["k"], [⟨some "a", none, some "p1",
      some "AAAAAAAAAAAAAAAAAAAAxyz"⟩], []⟩ =
    get_config ⟨["k"], [⟨some "a", none, some "p2",
      some "AAAAAAAAAAAAAAAAAAAAqq"⟩], []⟩ :=
  (redaction_no_leak _ _ rfl rfl
    (List.Forall₂.cons
      (by unfold CredEquiv; refine ⟨rfl, rfl, ?_, ?_, ?_⟩ <;> decide)
      List.Forall₂.nil)).1

/-- With no cooldowns, running the queue from a fresh rebuild reads off the
identifier list in order. -/
theorem runQueue_drop (ids : List String) :
    ∀ n c, c + n ≤ ids.length →
      (runQueue n ⟨ids, c⟩).1 = (ids.drop c).take n := by
  intro n
  induction n with
  | zero => intro c hc; simp [runQueue]
  | succ k ih =>
      intro c hc
      have hne : ids ≠ [] := by
        intro he
        subst he
        simp at hc
      have hclt : c < ids.length := by omega
      simp only [runQueue, queueNext, if_neg hne]
      rw [Nat.mod_eq_of_lt hclt, List.get?_eq_get hclt]
      rw [ih (c + 1) (by omega)]
      rw [List.drop_eq_getElem_cons hclt, List.take_succ_cons,
          List.get_eq_getElem]
      rfl

/-- C8: with N available accounts and no failures, N consecutive
selections from a freshly rebuilt rotation queue return every account
exactly once, in insertion order, before any account repeats. -/
theorem rotation_visits_all_in_order (ids : List String) (h : ids.Nodup) :
    (runQueue ids.length (init_account_queue ids)).1 = ids ∧
    ∀ a ∈ ids, ((runQueue ids.length (init_account_queue ids)).1).count a = 1 := by
  have hout : (runQueue ids.length (init_account_queue ids)).1 = ids := by
    have hh := runQueue_drop ids ids.length 0 (by omega)
    simpa [init_account_queue] using hh
  refine ⟨hout, fun a ha => ?_⟩
  rw [hout]
  exact List.count_eq_one_of_mem h ha

theorem rotation_visits_all_in_order_wit :
    (runQueue 3 (init_account_queue ["a", "b", "c"])).1 = ["a", "b", "c"] ∧
    ∀ a ∈ ["a", "b", "c"],
      ((runQueue 3 (init_account_queue ["a", "b", "c"])).1).count a = 1 :=
  rotation_visits_all_in_order ["a", "b", "c"] (by decide)

/-- C9: `list_accounts` clamps `page_size` into `[1, 100]` and `page` to at
least 1, reports `total` as the number of stored accounts and
`total_pages` as the ceiling of `total / page_size` but at least 1,
returns at most `page_size` items, taken as a window of the redacted
accounts in reverse insertion order, and a page past the last yields an
empty item list. -/
theorem list_accounts_pagination (accounts : List Account) (page psize : Int) :
    1 ≤ (list_accounts accounts page psize).page_size ∧
    (list_accounts accounts page psize).page_size ≤ 100 ∧
    1 ≤ (list_accounts accounts page psize).page ∧
    (list_accounts accounts page psize).total = accounts.length ∧
    (list_accounts accounts page psize).total_pages =
      max 1 ((accounts.length + (list_accounts accounts page psize).page_size.toNat - 1)
        / (list_accounts accounts page psize).page_size.toNat) ∧
    (list_accounts accounts page psize).items.length ≤
      (list_accounts accounts page psize).page_size.toNat ∧
    (list_accounts accounts page psize).items =
      ((accounts.map redactAccount).reverse.drop
        ((((list_accounts accounts page psize).page - 1) *
          (list_accounts accounts page psize).page_size).toNat)).take
        ((list_accounts accounts page psize).page_size.toNat) ∧
    (((list_accounts accounts page psize).total_pages : Int) <
        (list_accounts accounts page psize).page →
      (list_accounts accounts page psize).items = []) := by
  have hps : (list_accounts accounts page psize).page_size =
      max 1 (min 100 psize) := rfl
  have hpg : (list_accounts accounts page psize).page = max 1 page := rfl
  have htot : (list_accounts accounts page psize).total = accounts.length := rfl
  have htp : (list_accounts accounts page psize).total_pages =
      (if 0 < accounts.length then
        (accounts.length + (max 1 (min 100 psize)).toNat - 1) /
          (max 1 (min 100 psize)).toNat
       else 1) := rfl
  have hitems : (list_accounts accounts page psize).items =
      ((accounts.reverse.drop
          (((max 1 page - 1) * max 1 (min 100 psize)).toNat)).take
        ((max 1 (min 100 psize)).toNat)).map redactAccount := rfl
  rw [hps, hpg, htot, htp, hitems]
  set t := accounts.length with ht
  set S : Int := max 1 (min 100 psize) with hSdef
  set P : Int := max 1 page with hPdef
  have hS1 : 1 ≤ S := le_max_left _ _
  have hS100 : S ≤ 100 := max_le (by norm_num) (min_le_left _ _)
  have hP1 : 1 ≤ P := le_max_left _ _
  have hpn : 1 ≤ S.toNat := by omega
  refine ⟨hS1, hS100, hP1, rfl, ?_, ?_, ?_, ?_⟩
  · by_cases htt : 0 < t
    · rw [if_pos htt]
      exact (max_eq_right ((Nat.le_div_iff_mul_le (by omega)).mpr (by omega))).symm
    · rw [if_neg htt]
      have ht0 : t = 0 := by omega
      rw [ht0, Nat.zero_add, Nat.div_eq_of_lt (by omega)]
      rfl
  · rw [List.length_map, List.length_take]
    exact min_le_left _ _
  · rw [List.map_take, List.map_drop, List.map_reverse]
  · intro hlt
    have hts : t ≤ ((P - 1) * S).toNat := by
      by_cases htt : 0 < t
      · rw [if_pos htt] at hlt
        have hstart : ((P - 1) * S).toNat = (P - 1).toNat * S.toNat := by
          have h1 : (0 : Int) ≤ P - 1 := by omega
          have h2 : (0 : Int) ≤ S := by omega
          have hp1 : P - 1 = ((P - 1).toNat : Int) := (Int.toNat_of_nonneg h1).symm
          have hs1 : S = (S.toNat : Int) := (Int.toNat_of_nonneg h2).symm
          conv_lhs => rw [hp1, hs1, ← Int.natCast_mul, Int.toNat_natCast]
        have htp' : (t + S.toNat - 1) / S.toNat ≤ (P - 1).toNat := by omega
        have hceil : t ≤ ((t + S.toNat - 1) / S.toNat) * S.toNat := by
          have hdm := Nat.div_add_mod (t + S.toNat - 1) S.toNat
          have hmlt : (t + S.toNat - 1) % S.toNat < S.toNat :=
            Nat.mod_lt _ (by omega)
          rw [Nat.mul_comm] at hdm
          generalize hX : ((t + S.toNat - 1) / S.toNat) * S.toNat = X at hdm ⊢
          omega
        calc t ≤ ((t + S.toNat - 1) / S.toNat) * S.toNat := hceil
          _ ≤ (P - 1).toNat * S.toNat := Nat.mul_le_mul_right _ htp'
          _ = ((P - 1) * S).toNat := hstart.symm
      · omega
    have hdrop : accounts.reverse.drop (((P - 1) * S).toNat) = [] :=
      List.drop_eq_nil_of_le (by rw [List.length_reverse]; exact hts)
    rw [hdrop, List.take_nil, List.map_nil]

theorem list_accounts_pagination_wit :
    (list_accounts [⟨some "a", none, none, none⟩] 5 3).items = [] := by
  have h := list_accounts_pagination [⟨some "a", none, none, none⟩] 5 3
  exact h.2.2.2.2.2.2.2 (by decide)

end DS2Api
